import Mathlib

/-!
# Pulse-Website release catalog engine — verification development

Shallow embedding of the version comparator, catalog filtering/sorting,
fetch-cycle state handling and download-wizard state machine found in
`src/pages/Releases.tsx`, the DevBuilds page, and
`src/components/LandingPage/DownloadModal.tsx`.

JavaScript strings are modelled as `List Char` (a JS string is a sequence
of code units; all strings involved here are plain ASCII).  JavaScript
numbers appearing as integer build ids and parsed integers are modelled as
`Int`; `NaN` results of `parseInt` are modelled as `none : Option Int`.
-/

namespace Pulse

/-- JS strings, modelled as character lists. -/
abbrev JStr := List Char

/-- `String.prototype.toLowerCase`, restricted to the ASCII strings used by
the site (platform ids and backend platform names). -/
def jsToLower (s : JStr) : JStr := s.map Char.toLower

/-- JS string truthiness: the empty string is the only falsy string. -/
def strTruthy (s : JStr) : Bool := s ≠ []

/-- Numeric value of a list of decimal digit characters (most significant
first), as read by `parseInt` after the sign. -/
def digitsToNat (ds : List Char) : Nat :=
  ds.foldl (fun acc c => 10 * acc + (c.toNat - ('0').toNat)) 0

/-- JS `parseInt(s, 10)`: skip leading whitespace, read an optional sign,
then the longest prefix of decimal digits; `none` models `NaN` (no digit
found). -/
def jsParseInt (s : JStr) : Option Int :=
  match s.dropWhile Char.isWhitespace with
  | '-' :: r =>
      if r.takeWhile Char.isDigit = [] then none
      else some (-(digitsToNat (r.takeWhile Char.isDigit) : Int))
  | '+' :: r =>
      if r.takeWhile Char.isDigit = [] then none
      else some ((digitsToNat (r.takeWhile Char.isDigit) : Int))
  | r =>
      if r.takeWhile Char.isDigit = [] then none
      else some ((digitsToNat (r.takeWhile Char.isDigit) : Int))

/-- `parseInt(p, 10) || 0`: `NaN` (and `0` itself, and `-0`) collapse to
`0`. -/
def parseIntOr0 (s : JStr) : Int := (jsParseInt s).getD 0

/-- JS `s.split('.')`: e.g. `"" ↦ [""]`, `"1..2" ↦ ["1","","2"]`. -/
def splitOnDot : JStr → List JStr
  | [] => [[]]
  | c :: cs =>
      if c = '.' then [] :: splitOnDot cs
      else
        match splitOnDot cs with
        | s :: rest => (c :: s) :: rest
        | [] => [[c]]

/-- `v.split('.').map((p) => parseInt(p, 10) || 0)` — the numeric segment
list of a version string. -/
def versionParts (v : JStr) : List Int := (splitOnDot v).map parseIntOr0

/-- Tail of the `compareVersions` index loop once the first segment list is
exhausted: every remaining position reads `0` on the left (`parts1[i] || 0`)
and `y` on the right. -/
def zerosCmp : List Int → Int
  | [] => 0
  | y :: ys =>
      if (0 : Int) > y then 1 else if (0 : Int) < y then -1 else zerosCmp ys

/-- The index loop of `compareVersions`: positions run up to the longer of
the two segment lists, missing entries read as `0` (`parts[i] || 0`); the
sign of the first differing position is returned, else `0`. -/
def cmpParts : List Int → List Int → Int
  | [], ys => zerosCmp ys
  | x :: xs, [] =>
      if x > 0 then 1 else if x < 0 then -1 else cmpParts xs []
  | x :: xs, y :: ys =>
      if x > y then 1 else if x < y then -1 else cmpParts xs ys

/-- `compareVersions` from `Releases.tsx` (line-for-line identical copy in
the DevBuilds page): split both strings on `.`, parse each segment with
`parseInt(p, 10) || 0`, then compare position-wise with missing trailing
segments read as `0`. -/
def compareVersions (v1 v2 : JStr) : Int :=
  cmpParts (versionParts v1) (versionParts v2)

/-- Pad a segment list with zeros up to length `N`; padding with zeros never
changes any comparison (missing segments read as zero anyway). -/
def padZeros (N : Nat) (l : List Int) : List Int := l ++ List.replicate (N - l.length) 0

/-! ## Catalog data model and the filtered, sorted display list -/

/-- The `Release` record of `Releases.tsx`. -/
structure Release where
  version : JStr
  platform : JStr
  build_id : Int
  changelog : JStr
  filename : JStr
  file_size : Int
  upload_timestamp : JStr
deriving DecidableEq

/-- The `DevBuild` record of the DevBuilds page. -/
structure DevBuild where
  version : JStr
  build_id : Int
  commit_hash : JStr
  author : JStr
  commit_message : JStr
  platform : JStr
  upload_timestamp : JStr
deriving DecidableEq

/-- The sort comparator shared by `processedReleases` and
`processedBuilds`: `versionDiff = compareVersions(b.version, a.version)`,
returned when nonzero, otherwise `b.build_id - a.build_id` (version
descending, then numeric build id descending).  Parameterised by the two
key projections since the two pages use it on different record types. -/
def catalogCmp {α : Type} (ver : α → JStr) (bid : α → Int) (a b : α) : Int :=
  let versionDiff := compareVersions (ver b) (ver a)
  if versionDiff ≠ 0 then versionDiff else bid b - bid a

/-- `a` may be placed no later than `b` by the sort: comparator ≤ 0. -/
def catalogBefore {α : Type} (ver : α → JStr) (bid : α → Int) (a b : α) : Prop :=
  catalogCmp ver bid a b ≤ 0

instance {α : Type} (ver : α → JStr) (bid : α → Int) :
    DecidableRel (catalogBefore ver bid) :=
  fun a b => inferInstanceAs (Decidable (catalogCmp ver bid a b ≤ 0))

/-- `processedReleases` from `Releases.tsx`: apply the non-empty version
filter, then the non-empty platform filter, then sort with `catalogCmp`
(the source sorts in place with `Array.prototype.sort`, a stable sort under
a consistent comparator, which a stable insertion sort models exactly). -/
def processedReleases (releases : List Release)
    (selectedVersion selectedPlatform : JStr) : List Release :=
  let result := releases
  let result := if strTruthy selectedVersion then
    result.filter (fun r => r.version == selectedVersion) else result
  let result := if strTruthy selectedPlatform then
    result.filter (fun r => r.platform == selectedPlatform) else result
  List.insertionSort (catalogBefore Release.version Release.build_id) result

/-- `processedBuilds` from the DevBuilds page — same pipeline over
`DevBuild` records. -/
def processedBuilds (builds : List DevBuild)
    (selectedVersion selectedPlatform : JStr) : List DevBuild :=
  let result := builds
  let result := if strTruthy selectedVersion then
    result.filter (fun b => b.version == selectedVersion) else result
  let result := if strTruthy selectedPlatform then
    result.filter (fun b => b.platform == selectedPlatform) else result
  List.insertionSort (catalogBefore DevBuild.version DevBuild.build_id) result

/-- `handlePlatformFilter` (identical in both catalog pages):
`setSelectedPlatform(prev => prev === plat ? '' : plat)`. -/
def handlePlatformFilter (prev plat : JStr) : JStr :=
  if prev == plat then [] else plat

/-! ## Download wizard (`DownloadModal.tsx`) -/

/-- The `ApiRelease` interface of `DownloadModal.tsx`; `build_id` and the
size fields are strings there, and `size`, `releaseDate`, `release_date`
are optional (`none` models an absent field, i.e. JS `undefined`). -/
structure ApiRelease where
  version : JStr
  platform : JStr
  build_id : JStr
  size : Option JStr
  file_size : JStr
  releaseDate : Option JStr
  release_date : Option JStr
deriving DecidableEq

/-- The `PlatformMeta` interface. -/
structure PlatformMeta where
  id : JStr
  name : JStr
  description : JStr
deriving DecidableEq

/-- `PLATFORMS_META`: the fixed platform candidates offered at wizard
step 2. -/
def PLATFORMS_META : List PlatformMeta :=
  [⟨("paper").toList, ("Paper").toList, ("High-performance server").toList⟩,
   ⟨("purpur").toList, ("Purpur").toList, ("Feature-rich server").toList⟩,
   ⟨("fabric").toList, ("Fabric").toList, ("Lightweight mod loader").toList⟩]

/-- The wizard selection state: `step`, `selectedVersion`,
`selectedPlatform`. -/
structure WizardState where
  step : Nat
  selectedVersion : JStr
  selectedPlatform : JStr
deriving DecidableEq

/-- `handleVersionSelect`: sets the version and moves to step 2. -/
def handleVersionSelect (st : WizardState) (version : JStr) : WizardState :=
  { st with selectedVersion := version, step := 2 }

/-- `handlePlatformSelect`: sets the platform and moves to step 3. -/
def handlePlatformSelect (st : WizardState) (platform : JStr) : WizardState :=
  { st with selectedPlatform := platform, step := 3 }

/-- The `isAvailable` availability check of the step-2 platform buttons:
some artifact has the selected version and a case-insensitively equal
platform string. -/
def isAvailable (releases : List ApiRelease) (selectedVersion pid : JStr) : Bool :=
  releases.any (fun r =>
    r.version == selectedVersion && jsToLower r.platform == jsToLower pid)

/-- A click on the step-2 button for platform id `pid`: the button is
rendered `disabled={!isAvailable}` and its `onClick` only invokes
`handlePlatformSelect` when `isAvailable`, so an unavailable platform
leaves the state untouched. -/
def platformButtonClick (releases : List ApiRelease) (st : WizardState)
    (pid : JStr) : WizardState :=
  if isAvailable releases st.selectedVersion pid then
    handlePlatformSelect st pid
  else st

/-- The `releases.find(...)` lookup shared by `getDownloadData`: first
artifact with the selected version and a case-insensitively equal
platform. -/
def wizardMatch (releases : List ApiRelease) (sv sp : JStr) : Option ApiRelease :=
  releases.find? (fun d => d.version == sv && jsToLower d.platform == jsToLower sp)

/-- JS `a || b` on strings: the empty string is the only falsy string. -/
def jsOrStr (a b : JStr) : JStr := if a = [] then b else a

/-- JS `a || b` where `a` may be `undefined` (absent optional field). -/
def jsOrOpt (a : Option JStr) (b : JStr) : JStr :=
  match a with
  | none => b
  | some s => if s = [] then b else s

/-- The resolved download descriptor of `getDownloadData`. -/
structure DownloadData where
  link : JStr
  size : JStr
  date : JStr
deriving DecidableEq

/-- `getDownloadData` from `DownloadModal.tsx`: resolve the matched
artifact, build the download link from the fixed API root and `build_id`
(the `|| '404'` fallback in the source is dead, the template string is
never empty), take `size = data.size || data.file_size || "0"` and
`date = data.releaseDate || data.release_date || <current date>`; `today`
models `new Date().toISOString().split('T')[0]` at resolution time. -/
def getDownloadData (releases : List ApiRelease)
    (selectedVersion selectedPlatform today : JStr) : Option DownloadData :=
  match wizardMatch releases selectedVersion selectedPlatform with
  | none => none
  | some data =>
      some { link := ("https://api.pulsemc.dev/release/download/").toList
                       ++ data.build_id,
             size := jsOrOpt data.size (jsOrStr data.file_size (("0").toList)),
             date := jsOrOpt data.releaseDate (jsOrOpt data.release_date today) }

/-- The guard branch `if (!+bytes) return '0 Bytes'` of the modal's
`formatBytes`, applied to `parseInt(downloadData.size)` (`none` models
`NaN`): `true` exactly when the confirmation view renders `"0 Bytes"`; no
other branch of `formatBytes` can produce that text, since for a nonzero
integer the formatted magnitude is nonzero. -/
def formatBytesIsZero (bytes : Option Int) : Bool :=
  match bytes with
  | none => true
  | some n => n == 0

/-! ## Fetch response envelopes and the fetch-cycle state machines -/

/-- Parsed JSON values, as produced by `response.json()`.  Artifact
objects are left as raw JSON here because the envelope normalization is
shape-generic. -/
inductive Jsonish where
  | jnull
  | jbool (b : Bool)
  | jnum (n : Int)
  | jstr (s : JStr)
  | jarr (elems : List Jsonish)
  | jobj (fields : List (JStr × Jsonish))

/-- First binding of a field name in an object literal. -/
def lookupField : List (JStr × Jsonish) → JStr → Option Jsonish
  | [], _ => none
  | (k, v) :: rest, name => if k = name then some v else lookupField rest name

/-- JS property access `data[name]`; `none` models `undefined` (also for
non-object receivers, where real JS member access on `null` would throw —
the theorems below only apply this to object envelopes). -/
def jsField : Jsonish → JStr → Option Jsonish
  | Jsonish.jobj fields, name => lookupField fields name
  | _, _ => none

/-- JS truthiness of a parsed JSON value. -/
def jsTruthy : Jsonish → Bool
  | Jsonish.jnull => false
  | Jsonish.jbool b => b
  | Jsonish.jnum n => n != 0
  | Jsonish.jstr s => s ≠ []
  | Jsonish.jarr _ => true
  | Jsonish.jobj _ => true

/-- `Releases.tsx` line 84:
`Array.isArray(data.data) ? data.data : (data ? [data] : [])` —
note the fallback tests and wraps the whole envelope `data`, not
`data.data`. -/
def normReleasesData (data : Jsonish) : List Jsonish :=
  match jsField data (("data").toList) with
  | some (Jsonish.jarr elems) => elems
  | _ => if jsTruthy data then [data] else []

/-- DevBuilds page line 77:
`Array.isArray(data.data) ? data.data : (data.data ? [data.data] : [])`. -/
def normBuildsData (data : Jsonish) : List Jsonish :=
  match jsField data (("data").toList) with
  | some (Jsonish.jarr elems) => elems
  | some v => if jsTruthy v then [v] else []
  | none => []

/-- `DownloadModal.tsx` line 105:
`setReleases(Array.isArray(data.data) ? data.data : [])`. -/
def normModalData (data : Jsonish) : List Jsonish :=
  match jsField data (("data").toList) with
  | some (Jsonish.jarr elems) => elems
  | _ => []

/-- How one fetch cycle ends: a 2xx body, a non-2xx response (whose
`statusText` feeds the thrown `Error`), a thrown `Error` (network
failure), or a thrown non-`Error` value. -/
inductive FetchOutcome where
  | ok (body : Jsonish)
  | httpError (statusText : JStr)
  | thrownError (message : JStr)
  | thrownOther

/-- The three independent state flags of the releases/dev-builds pages. -/
structure BrowserFetchState where
  list : List Jsonish
  loading : Bool
  error : Option JStr

/-- `fetchReleases` before the request: `setLoading(true); setError(null)`. -/
def fetchReleasesStart (s : BrowserFetchState) : BrowserFetchState :=
  { s with loading := true, error := none }

/-- `fetchReleases` completion: on a 2xx body store the normalized list;
a non-2xx response throws
`` Error(`Failed to fetch releases: ${response.statusText}`) ``; the catch
block records `err.message` for `Error` instances and the fixed
`'Failed to load releases'` otherwise, then clears the list; `finally`
clears the loading flag. -/
def fetchReleasesSettle (s : BrowserFetchState) : FetchOutcome → BrowserFetchState
  | FetchOutcome.ok body => { s with list := normReleasesData body, loading := false }
  | FetchOutcome.httpError st =>
      { s with list := [],
               error := some ((("Failed to fetch releases: ").toList) ++ st),
               loading := false }
  | FetchOutcome.thrownError m =>
      { s with list := [], error := some m, loading := false }
  | FetchOutcome.thrownOther =>
      { s with list := [], error := some (("Failed to load releases").toList),
               loading := false }

/-- One full `fetchReleases` cycle. -/
def fetchReleasesCycle (s : BrowserFetchState) (out : FetchOutcome) : BrowserFetchState :=
  fetchReleasesSettle (fetchReleasesStart s) out

/-- `fetchBuilds` before the request (DevBuilds page). -/
def fetchBuildsStart (s : BrowserFetchState) : BrowserFetchState :=
  { s with loading := true, error := none }

/-- `fetchBuilds` completion — same shape as the releases page with the
dev-builds messages and normalization. -/
def fetchBuildsSettle (s : BrowserFetchState) : FetchOutcome → BrowserFetchState
  | FetchOutcome.ok body => { s with list := normBuildsData body, loading := false }
  | FetchOutcome.httpError st =>
      { s with list := [],
               error := some ((("Failed to fetch dev builds: ").toList) ++ st),
               loading := false }
  | FetchOutcome.thrownError m =>
      { s with list := [], error := some m, loading := false }
  | FetchOutcome.thrownOther =>
      { s with list := [], error := some (("Failed to load dev builds").toList),
               loading := false }

/-- One full `fetchBuilds` cycle. -/
def fetchBuildsCycle (s : BrowserFetchState) (out : FetchOutcome) : BrowserFetchState :=
  fetchBuildsSettle (fetchBuildsStart s) out

/-- The wizard's fetch-effect flags. -/
structure ModalFetchState where
  releases : List Jsonish
  isLoading : Bool
  error : Bool
  isDownloading : Bool

/-- The wizard effect on open:
`setIsLoading(true); setError(false); setIsDownloading(false)`. -/
def modalFetchStart (s : ModalFetchState) : ModalFetchState :=
  { s with isLoading := true, error := false, isDownloading := false }

/-- The wizard fetch resolution: `.then` stores the normalized list and
clears loading; `.catch` sets the boolean error flag and clears loading —
it does not touch the stored releases list. -/
def modalFetchSettle (s : ModalFetchState) : FetchOutcome → ModalFetchState
  | FetchOutcome.ok body =>
      { s with releases := normModalData body, isLoading := false }
  | _ => { s with error := true, isLoading := false }

/-- One full wizard fetch cycle. -/
def modalFetchCycle (s : ModalFetchState) (out : FetchOutcome) : ModalFetchState :=
  modalFetchSettle (modalFetchStart s) out

/-! ## The wizard's version list and its locale-numeric ordering

`DownloadModal.tsx` sorts its distinct versions with
`b.localeCompare(a, undefined, { numeric: true, sensitivity: 'base' })`,
not with `compareVersions`.  Numeric collation splits each string into
maximal decimal-digit runs (compared by numeric value — at base
sensitivity equal values tie) and remaining single characters; digit runs
carry a higher primary weight than ASCII punctuation such as `'.'` in the
root collation, and other characters compare by code point, which is
adequate for the digit/dot version strings compared here. -/

/-- A collation token of numeric collation: a digit run's value, or a
single non-digit character. -/
inductive ColToken where
  | num (n : Nat)
  | ch (c : Char)
deriving DecidableEq

/-- Accumulator-style tokenizer: `some a` is a digit run in progress with
value `a`. -/
def tokenizeAux : Option Nat → List Char → List ColToken
  | none, [] => []
  | some n, [] => [ColToken.num n]
  | acc, c :: cs =>
      if c.isDigit then
        tokenizeAux (some (10 * acc.getD 0 + (c.toNat - ('0').toNat))) cs
      else
        match acc with
        | none => ColToken.ch c :: tokenizeAux none cs
        | some n => ColToken.num n :: ColToken.ch c :: tokenizeAux none cs

/-- Numeric-collation tokenization of a string. -/
def tokenizeNumeric (cs : List Char) : List ColToken := tokenizeAux none cs

/-- Primary-strength comparison of two collation tokens. -/
def tokCmp : ColToken → ColToken → Int
  | ColToken.num a, ColToken.num b => if a < b then -1 else if b < a then 1 else 0
  | ColToken.num _, ColToken.ch _ => 1
  | ColToken.ch _, ColToken.num _ => -1
  | ColToken.ch a, ColToken.ch b =>
      if a.toNat < b.toNat then -1 else if b.toNat < a.toNat then 1 else 0

/-- Lexicographic comparison of token lists; a strict prefix sorts
first. -/
def lexTok : List ColToken → List ColToken → Int
  | [], [] => 0
  | [], _ :: _ => -1
  | _ :: _, [] => 1
  | t :: ts, u :: us => if tokCmp t u ≠ 0 then tokCmp t u else lexTok ts us

/-- Model of `a.localeCompare(b, undefined, {numeric: true,
sensitivity: 'base'})`, normalized to `{-1, 0, 1}` (JS only guarantees the
sign). -/
def localeCompareNumericBase (a b : JStr) : Int :=
  lexTok (tokenizeNumeric a) (tokenizeNumeric b)

/-- `a` sorts no later than `b` in the wizard's version list: the source
comparator is `(a, b) => b.localeCompare(a, ...)`, descending. -/
def wizardVersionBefore (a b : JStr) : Prop :=
  localeCompareNumericBase b a ≤ 0

instance : DecidableRel wizardVersionBefore :=
  fun a b => inferInstanceAs (Decidable (localeCompareNumericBase b a ≤ 0))

/-- `a` sorts no later than `b` in the browsers' version lists: the source
comparator is `(a, b) => compareVersions(b, a)`, descending. -/
def browserVersionBefore (a b : JStr) : Prop :=
  compareVersions b a ≤ 0

instance : DecidableRel browserVersionBefore :=
  fun a b => inferInstanceAs (Decidable (compareVersions b a ≤ 0))

/-- `Array.from(new Set(xs))`: keep the first occurrence of each element,
in insertion order.  `seen` is the set built so far. -/
def dedupSeen (seen : List JStr) : List JStr → List JStr
  | [] => []
  | x :: xs => if x ∈ seen then dedupSeen seen xs else x :: dedupSeen (x :: seen) xs

/-- `Array.from(new Set(xs))` from the empty set. -/
def dedupKeepFirst (l : List JStr) : List JStr := dedupSeen [] l

/-- `uniqueVersions` from `DownloadModal.tsx`: distinct versions of the
wizard's catalog, sorted descending by the locale-numeric comparator. -/
def uniqueVersions (releases : List ApiRelease) : List JStr :=
  List.insertionSort wizardVersionBefore
    (dedupKeepFirst (releases.map ApiRelease.version))

/-- `availableVersions` from `Releases.tsx` (same in the DevBuilds page):
distinct versions sorted descending by `compareVersions`. -/
def availableVersions (releases : List Release) : List JStr :=
  List.insertionSort browserVersionBefore
    (dedupKeepFirst (releases.map Release.version))

/-- JS default-comparator string comparison (code-unit lexicographic
less-than), as used by the browser pages' `uniquePlatforms.sort()`. -/
def jsStrLt : JStr → JStr → Bool
  | [], [] => false
  | [], _ :: _ => true
  | _ :: _, [] => false
  | a :: as, b :: bs =>
      if a.toNat < b.toNat then true
      else if b.toNat < a.toNat then false
      else jsStrLt as bs

/-- `availablePlatforms` from `Releases.tsx` (same in the DevBuilds page):
distinct platform values of the fetched catalog, sorted ascending
lexicographically by the default comparator. -/
def availablePlatforms (releases : List Release) : List JStr :=
  List.insertionSort (fun a b => jsStrLt b a = false)
    (dedupKeepFirst (releases.map Release.platform))

/-! ## Agreement of the two version orderings on well-formed versions -/

/-- Well-formed dot-numeric version strings: one or more nonempty
all-digit segments separated by single dots. -/
inductive WfVer : JStr → Prop where
  | last (ds : List Char) (hne : ds ≠ [])
      (hdig : ∀ c ∈ ds, c.isDigit = true) : WfVer ds
  | seg (ds : List Char) (rest : JStr) (hne : ds ≠ [])
      (hdig : ∀ c ∈ ds, c.isDigit = true) (hrest : WfVer rest) :
      WfVer (ds ++ '.' :: rest)

end Pulse

namespace Pulse

/-! ## Order-theoretic facts about the comparator loop -/

theorem zerosCmp_eq_neg_cmpParts (ys : List Int) : zerosCmp ys = -cmpParts ys [] := by
  induction ys with
  | nil => simp [zerosCmp, cmpParts]
  | cons y ys ih =>
      simp only [zerosCmp, cmpParts, ih]
      split_ifs <;> omega

theorem cmpParts_self (l : List Int) : cmpParts l l = 0 := by
  induction l with
  | nil => rfl
  | cons x xs ih => simp [cmpParts, ih]

theorem cmpParts_antisymm (a b : List Int) : cmpParts a b = -cmpParts b a := by
  induction a generalizing b with
  | nil =>
      cases b with
      | nil => rfl
      | cons y ys =>
          simp only [cmpParts, zerosCmp, zerosCmp_eq_neg_cmpParts]
          split_ifs <;> omega
  | cons x xs ih =>
      cases b with
      | nil =>
          simp only [cmpParts, zerosCmp, zerosCmp_eq_neg_cmpParts xs]
          split_ifs <;> omega
      | cons y ys =>
          simp only [cmpParts, ih ys]
          split_ifs <;> omega

theorem zerosCmp_mem (ys : List Int) :
    zerosCmp ys = -1 ∨ zerosCmp ys = 0 ∨ zerosCmp ys = 1 := by
  induction ys with
  | nil => simp [zerosCmp]
  | cons y ys ih =>
      simp only [zerosCmp]
      split_ifs <;> simp [ih]

theorem cmpParts_mem (a b : List Int) :
    cmpParts a b = -1 ∨ cmpParts a b = 0 ∨ cmpParts a b = 1 := by
  induction a generalizing b with
  | nil => simpa [cmpParts] using zerosCmp_mem b
  | cons x xs ih =>
      cases b with
      | nil =>
          simp only [cmpParts]
          split_ifs <;> simp [ih]
      | cons y ys =>
          simp only [cmpParts]
          split_ifs <;> simp [ih]

theorem zerosCmp_replicate_zero (k : Nat) : zerosCmp (List.replicate k 0) = 0 := by
  induction k with
  | zero => rfl
  | succ k ih =>
      simp only [List.replicate, zerosCmp]
      rw [if_neg (by omega), if_neg (by omega)]
      exact ih

theorem cmpParts_replicate_zero_right (a : List Int) (k : Nat) :
    cmpParts a (List.replicate k 0) = cmpParts a [] := by
  induction a generalizing k with
  | nil => simp [cmpParts, zerosCmp_replicate_zero, zerosCmp]
  | cons x xs ih =>
      cases k with
      | zero => rfl
      | succ k => simp only [List.replicate, cmpParts, ih]

theorem cmpParts_append_replicate_zero_right (b a : List Int) (k : Nat) :
    cmpParts a (b ++ List.replicate k 0) = cmpParts a b := by
  induction b generalizing a with
  | nil => simpa using cmpParts_replicate_zero_right a k
  | cons y ys ih =>
      cases a with
      | nil =>
          have h := ih (a := [])
          simp only [cmpParts] at h
          simp only [List.cons_append, cmpParts, zerosCmp, List.append_eq, h]
      | cons x xs => simp [cmpParts, ih]

theorem cmpParts_append_replicate_zero_left (a b : List Int) (k : Nat) :
    cmpParts (a ++ List.replicate k 0) b = cmpParts a b := by
  rw [cmpParts_antisymm, cmpParts_append_replicate_zero_right, ← cmpParts_antisymm]

theorem cmpParts_le_trans_of_length (a b c : List Int)
    (hab : a.length = b.length) (hbc : b.length = c.length)
    (h1 : cmpParts a b ≤ 0) (h2 : cmpParts b c ≤ 0) : cmpParts a c ≤ 0 := by
  induction a generalizing b c with
  | nil =>
      cases b with
      | nil =>
          cases c with
          | nil => exact h2
          | cons z zs => simp at hbc
      | cons y ys => simp at hab
  | cons x xs ih =>
      cases b with
      | nil => simp at hab
      | cons y ys =>
          cases c with
          | nil => simp at hbc
          | cons z zs =>
              simp only [List.length_cons, Nat.succ.injEq] at hab hbc
              simp only [cmpParts] at h1 h2 ⊢
              split_ifs at h1 h2 ⊢ <;>
                first
                  | omega
                  | exact ih ys zs hab hbc h1 h2

theorem length_padZeros {N : Nat} {l : List Int} (h : l.length ≤ N) :
    (padZeros N l).length = N := by
  simp [padZeros]
  omega

theorem cmpParts_padZeros (N : Nat) (a b : List Int) :
    cmpParts (padZeros N a) (padZeros N b) = cmpParts a b := by
  rw [padZeros, padZeros, cmpParts_append_replicate_zero_left,
    cmpParts_append_replicate_zero_right]

theorem cmpParts_le_trans {a b c : List Int}
    (h1 : cmpParts a b ≤ 0) (h2 : cmpParts b c ≤ 0) : cmpParts a c ≤ 0 := by
  have key := cmpParts_le_trans_of_length
    (padZeros (max (max a.length b.length) c.length) a)
    (padZeros (max (max a.length b.length) c.length) b)
    (padZeros (max (max a.length b.length) c.length) c)
  rw [length_padZeros (by omega), length_padZeros (by omega),
    length_padZeros (by omega), cmpParts_padZeros, cmpParts_padZeros,
    cmpParts_padZeros] at key
  exact key rfl rfl h1 h2

theorem compareVersions_self (v : JStr) : compareVersions v v = 0 :=
  cmpParts_self _

theorem compareVersions_antisymm (a b : JStr) :
    compareVersions a b = -compareVersions b a :=
  cmpParts_antisymm _ _

theorem compareVersions_mem (a b : JStr) :
    compareVersions a b = -1 ∨ compareVersions a b = 0 ∨ compareVersions a b = 1 :=
  cmpParts_mem _ _

theorem compareVersions_le_trans {a b c : JStr}
    (h1 : compareVersions a b ≤ 0) (h2 : compareVersions b c ≤ 0) :
    compareVersions a c ≤ 0 :=
  cmpParts_le_trans h1 h2

theorem compareVersions_eq_trans {a b c : JStr}
    (h1 : compareVersions a b = 0) (h2 : compareVersions b c = 0) :
    compareVersions a c = 0 := by
  have hba : compareVersions b a = 0 := by
    rw [compareVersions_antisymm] at h1; omega
  have hcb : compareVersions c b = 0 := by
    rw [compareVersions_antisymm] at h2; omega
  have hac := compareVersions_le_trans (a := a) (b := b) (c := c) (by omega) (by omega)
  have hca := compareVersions_le_trans (a := c) (b := b) (c := a) (by omega) (by omega)
  rw [compareVersions_antisymm] at hca
  omega

theorem compareVersions_lt_of_lt_of_eq {a b c : JStr}
    (h1 : compareVersions a b = -1) (h2 : compareVersions b c = 0) :
    compareVersions a c = -1 := by
  have hac := compareVersions_le_trans (a := a) (b := b) (c := c) (by omega) (by omega)
  rcases compareVersions_mem a c with h | h | h
  · exact h
  · exfalso
    have hca : compareVersions c a = 0 := by
      rw [compareVersions_antisymm] at h; omega
    have hba := compareVersions_eq_trans h2 hca
    rw [compareVersions_antisymm] at hba
    omega
  · omega

theorem compareVersions_lt_of_eq_of_lt {a b c : JStr}
    (h1 : compareVersions a b = 0) (h2 : compareVersions b c = -1) :
    compareVersions a c = -1 := by
  have hac := compareVersions_le_trans (a := a) (b := b) (c := c) (by omega) (by omega)
  rcases compareVersions_mem a c with h | h | h
  · exact h
  · exfalso
    have hca : compareVersions c a = 0 := by
      rw [compareVersions_antisymm] at h; omega
    have hcb := compareVersions_eq_trans hca h1
    rw [compareVersions_antisymm] at hcb
    omega
  · omega

theorem compareVersions_lt_trans {a b c : JStr}
    (h1 : compareVersions a b = -1) (h2 : compareVersions b c = -1) :
    compareVersions a c = -1 := by
  have hac := compareVersions_le_trans (a := a) (b := b) (c := c) (by omega) (by omega)
  rcases compareVersions_mem a c with h | h | h
  · exact h
  · exfalso
    have hca : compareVersions c a = 0 := by
      rw [compareVersions_antisymm] at h; omega
    have := compareVersions_lt_of_lt_of_eq h2 hca
    rw [compareVersions_antisymm] at this
    omega
  · omega

/-- **C7.** `compareVersions` is a total order on version strings: comparing
a string with itself gives `0`; swapping the arguments negates the result;
the induced `≤` relation (`compare ≤ 0`) is transitive; and every result
lies in `{-1, 0, 1}`. -/
theorem compareVersions_total_order (a b c : JStr) :
    compareVersions a a = 0 ∧
    compareVersions a b = -compareVersions b a ∧
    (compareVersions a b ≤ 0 → compareVersions b c ≤ 0 → compareVersions a c ≤ 0) ∧
    (compareVersions a b = -1 ∨ compareVersions a b = 0 ∨ compareVersions a b = 1) :=
  ⟨compareVersions_self a, compareVersions_antisymm a b,
    fun h1 h2 => compareVersions_le_trans h1 h2, compareVersions_mem a b⟩

/-- Witness for C7: the transitivity hypotheses are satisfiable, e.g. by
`"1.2" ≤ "1.10" ≤ "2.0"`. -/
theorem compareVersions_total_order_witness :
    compareVersions ("1.2").toList ("1.10").toList ≤ 0 ∧
    compareVersions ("1.10").toList ("2.0").toList ≤ 0 ∧
    compareVersions ("1.2").toList ("2.0").toList ≤ 0 :=
  ⟨by decide, by decide,
    (compareVersions_total_order ("1.2").toList ("1.10").toList
      ("2.0").toList).2.2.1 (by decide) (by decide)⟩

/-- **C8.** `compareVersions` compares segment-by-segment numerically (not
lexicographically) and treats missing trailing segments as zero:
`compare("1.10.0", "1.9.9") = 1` and `compare("2.0", "2.0.0") = 0`. -/
theorem compareVersions_numeric_segments :
    compareVersions ("1.10.0").toList ("1.9.9").toList = 1 ∧
    compareVersions ("2.0").toList ("2.0.0").toList = 0 :=
  ⟨by decide, by decide⟩

theorem catalogCmp_antisymm {α : Type} (ver : α → JStr) (bid : α → Int) (a b : α) :
    catalogCmp ver bid a b = -catalogCmp ver bid b a := by
  simp only [catalogCmp]
  rw [compareVersions_antisymm (ver b) (ver a)]
  rcases compareVersions_mem (ver a) (ver b) with h | h | h <;>
    rw [h] <;> norm_num

theorem catalogBefore_total {α : Type} (ver : α → JStr) (bid : α → Int) :
    ∀ a b : α, catalogBefore ver bid a b ∨ catalogBefore ver bid b a := by
  intro a b
  have h := catalogCmp_antisymm ver bid a b
  simp only [catalogBefore]
  omega

theorem catalogBefore_trans {α : Type} (ver : α → JStr) (bid : α → Int) :
    ∀ a b c : α, catalogBefore ver bid a b → catalogBefore ver bid b c →
      catalogBefore ver bid a c := by
  intro a b c h1 h2
  simp only [catalogBefore, catalogCmp] at h1 h2 ⊢
  rcases compareVersions_mem (ver b) (ver a) with hu | hu | hu <;>
    rcases compareVersions_mem (ver c) (ver b) with hv | hv | hv <;>
      simp only [hu, hv] at h1 h2 <;> norm_num at h1 h2 <;>
        first
          | omega
          | · rw [compareVersions_lt_trans hv hu]; norm_num
          | · rw [compareVersions_lt_of_lt_of_eq hv hu]; norm_num
          | · rw [compareVersions_lt_of_eq_of_lt hv hu]; norm_num
          | · rw [compareVersions_eq_trans hv hu]; norm_num; omega

theorem filteredPipeline_eq {α : Type} (l : List α) (verF platF : α → JStr)
    (sv sp : JStr) :
    (let r1 := if strTruthy sv then l.filter (fun r => verF r == sv) else l
     if strTruthy sp then r1.filter (fun r => platF r == sp) else r1) =
      l.filter (fun r =>
        (sv == [] || verF r == sv) && (sp == [] || platF r == sp)) := by
  by_cases hsv : sv = [] <;> by_cases hsp : sp = []
  · simp [strTruthy, hsv, hsp]
  · simp [strTruthy, hsv, hsp, List.isEmpty_eq_false.mpr hsp]
  · simp [strTruthy, hsv, hsp, List.isEmpty_eq_false.mpr hsv]
  · simp [strTruthy, hsv, hsp, List.filter_filter, Bool.and_comm,
      List.isEmpty_eq_false.mpr hsv, List.isEmpty_eq_false.mpr hsp]

theorem catalogBefore_spec {α : Type} (ver : α → JStr) (bid : α → Int)
    (a b : α) (h : catalogBefore ver bid a b) :
    compareVersions (ver b) (ver a) = -1 ∨
      (compareVersions (ver b) (ver a) = 0 ∧ bid b ≤ bid a) := by
  simp only [catalogBefore, catalogCmp] at h
  rcases compareVersions_mem (ver b) (ver a) with hu | hu | hu <;>
    simp only [hu] at h ⊢ <;> norm_num at h ⊢ <;> omega

/-- **C6.** `visible(catalog, selectedVersion, selectedPlatform)` keeps
exactly the artifacts matching each non-empty filter (a permutation of the
filtered catalog) and is sorted by version descending (`compareVersions`)
with `build_id` descending as tiebreaker — for the releases page and the
dev-builds page alike; in particular, on the catalog
`[{1.0, 5}, {1.0, 3}, {2.0, 1}]` with no filters it returns the order
`[{2.0, 1}, {1.0, 5}, {1.0, 3}]` (unspecified fields set to empty/zero). -/
theorem visible_filters_and_sorts :
    (∀ (releases : List Release) (sv sp : JStr),
      (processedReleases releases sv sp).Perm
        (releases.filter (fun r =>
          (sv == [] || r.version == sv) && (sp == [] || r.platform == sp))) ∧
      List.Pairwise (fun a b =>
        compareVersions b.version a.version = -1 ∨
          (compareVersions b.version a.version = 0 ∧ b.build_id ≤ a.build_id))
        (processedReleases releases sv sp)) ∧
    (∀ (builds : List DevBuild) (sv sp : JStr),
      (processedBuilds builds sv sp).Perm
        (builds.filter (fun b =>
          (sv == [] || b.version == sv) && (sp == [] || b.platform == sp))) ∧
      List.Pairwise (fun a b =>
        compareVersions b.version a.version = -1 ∨
          (compareVersions b.version a.version = 0 ∧ b.build_id ≤ a.build_id))
        (processedBuilds builds sv sp)) ∧
    processedReleases
      [⟨("1.0").toList, [], 5, [], [], 0, []⟩,
       ⟨("1.0").toList, [], 3, [], [], 0, []⟩,
       ⟨("2.0").toList, [], 1, [], [], 0, []⟩] [] [] =
      [⟨("2.0").toList, [], 1, [], [], 0, []⟩,
       ⟨("1.0").toList, [], 5, [], [], 0, []⟩,
       ⟨("1.0").toList, [], 3, [], [], 0, []⟩] := by
  haveI : IsTotal Release (catalogBefore Release.version Release.build_id) :=
    ⟨catalogBefore_total _ _⟩
  haveI : IsTrans Release (catalogBefore Release.version Release.build_id) :=
    ⟨catalogBefore_trans _ _⟩
  haveI : IsTotal DevBuild (catalogBefore DevBuild.version DevBuild.build_id) :=
    ⟨catalogBefore_total _ _⟩
  haveI : IsTrans DevBuild (catalogBefore DevBuild.version DevBuild.build_id) :=
    ⟨catalogBefore_trans _ _⟩
  refine ⟨fun releases sv sp => ⟨?_, ?_⟩, fun builds sv sp => ⟨?_, ?_⟩, by decide⟩
  · rw [← filteredPipeline_eq releases Release.version Release.platform sv sp]
    exact List.perm_insertionSort _ _
  · exact (List.sorted_insertionSort
      (catalogBefore Release.version Release.build_id) _).imp
      (fun {a b} h => catalogBefore_spec Release.version Release.build_id a b h)
  · rw [← filteredPipeline_eq builds DevBuild.version DevBuild.platform sv sp]
    exact List.perm_insertionSort _ _
  · exact (List.sorted_insertionSort
      (catalogBefore DevBuild.version DevBuild.build_id) _).imp
      (fun {a b} h => catalogBefore_spec DevBuild.version DevBuild.build_id a b h)

/-- **C9 counterexample.** The claim quantifies over every current filter
state; starting from the state in which `"paper"` is already the active
platform filter, applying the `"paper"` selection twice in a row ends with
the filter set to `"paper"`, not cleared. -/
theorem handlePlatformFilter_double_not_cleared :
    handlePlatformFilter
        (handlePlatformFilter ("paper").toList ("paper").toList)
        ("paper").toList = ("paper").toList ∧
      ("paper").toList ≠ ([] : JStr) := by
  exact ⟨by decide, by decide⟩

/-- **C9 (amended).** The platform filter is a single-valued toggle:
selecting the currently-active platform clears the filter, selecting any
other platform replaces the filter with that value, and — provided the
platform was not already the active filter — applying the same selection
twice in a row returns the filter to the cleared state. -/
theorem handlePlatformFilter_toggle (prev plat : JStr) :
    handlePlatformFilter plat plat = [] ∧
    (prev ≠ plat → handlePlatformFilter prev plat = plat) ∧
    (prev ≠ plat →
      handlePlatformFilter (handlePlatformFilter prev plat) plat = []) := by
  refine ⟨by simp [handlePlatformFilter], fun h => ?_, fun h => ?_⟩
  · simp [handlePlatformFilter, h]
  · simp [handlePlatformFilter, h]

/-- Witness for C9 (amended): instantiated at the cleared state and the
`"paper"` platform. -/
theorem handlePlatformFilter_toggle_witness :
    ([] : JStr) ≠ ("paper").toList ∧
    handlePlatformFilter [] ("paper").toList = ("paper").toList ∧
    handlePlatformFilter
      (handlePlatformFilter [] ("paper").toList) ("paper").toList = [] :=
  ⟨by decide,
    (handlePlatformFilter_toggle [] ("paper").toList).2.1 (by decide),
    (handlePlatformFilter_toggle [] ("paper").toList).2.2 (by decide)⟩

theorem tokCmp_antisymm (t u : ColToken) : tokCmp t u = -tokCmp u t := by
  cases t <;> cases u <;> simp only [tokCmp] <;>
    first
      | (split_ifs <;> omega)
      | omega
      | decide

theorem tokCmp_mem (t u : ColToken) :
    tokCmp t u = -1 ∨ tokCmp t u = 0 ∨ tokCmp t u = 1 := by
  cases t <;> cases u <;> simp only [tokCmp] <;>
    first
      | (split_ifs <;> omega)
      | omega
      | simp

theorem tokCmp_eq_zero_congr {t u : ColToken} (h : tokCmp t u = 0)
    (w : ColToken) : tokCmp t w = tokCmp u w := by
  cases t with
  | num a =>
      cases u with
      | num b =>
          have hab : a = b := by
            simp only [tokCmp] at h
            split_ifs at h <;> omega
          rw [hab]
      | ch b =>
          simp only [tokCmp] at h
          exact absurd h (by decide)
  | ch a =>
      cases u with
      | num b =>
          simp only [tokCmp] at h
          exact absurd h (by decide)
      | ch b =>
          have hab : a.toNat = b.toNat := by
            simp only [tokCmp] at h
            split_ifs at h <;> omega
          cases w with
          | num c => rfl
          | ch c => simp only [tokCmp, hab]

theorem tokCmp_neg_trans {t u w : ColToken} (h1 : tokCmp t u = -1)
    (h2 : tokCmp u w = -1) : tokCmp t w = -1 := by
  cases t <;> cases u <;> cases w <;>
    simp only [tokCmp] at h1 h2 ⊢ <;>
      first
        | (split_ifs at h1 h2 ⊢ <;> omega)
        | omega
        | rfl

theorem lexTok_antisymm : ∀ a b : List ColToken, lexTok a b = -lexTok b a := by
  intro a
  induction a with
  | nil => intro b; cases b <;> simp [lexTok]
  | cons t ts ih =>
      intro b
      cases b with
      | nil => simp [lexTok]
      | cons u us =>
          have hts := ih us
          have htok := tokCmp_antisymm t u
          simp only [lexTok, hts]
          split_ifs <;> omega

theorem lexTok_le_trans : ∀ a b c : List ColToken,
    lexTok a b ≤ 0 → lexTok b c ≤ 0 → lexTok a c ≤ 0 := by
  intro a
  induction a with
  | nil => intro b c h1 h2; cases c <;> simp [lexTok]
  | cons t ts ih =>
      intro b c h1 h2
      cases b with
      | nil => simp [lexTok] at h1
      | cons u us =>
          cases c with
          | nil => simp [lexTok] at h2
          | cons w ws =>
              simp only [lexTok] at h1 h2 ⊢
              rcases tokCmp_mem t u with htu | htu | htu
              · rcases tokCmp_mem u w with huw | huw | huw
                · have htw := tokCmp_neg_trans htu huw
                  simp only [htw]; norm_num
                · have hwu : tokCmp w u = 0 := by
                    rw [tokCmp_antisymm] at huw; omega
                  have htw : tokCmp t w = -1 := by
                    have := tokCmp_eq_zero_congr hwu t
                    rw [tokCmp_antisymm w t, tokCmp_antisymm u t] at this
                    omega
                  simp only [htw]; norm_num
                · simp only [huw] at h2; norm_num at h2
              · rcases tokCmp_mem u w with huw | huw | huw
                · have htw := tokCmp_eq_zero_congr htu w
                  rw [huw] at htw
                  simp only [htw]; norm_num
                · have htw := tokCmp_eq_zero_congr htu w
                  rw [huw] at htw
                  simp only [htw, htu] at h1 ⊢
                  norm_num at h1 h2 ⊢
                  rw [huw] at h2
                  norm_num at h2
                  exact ih us ws h1 h2
                · simp only [huw] at h2; norm_num at h2
              · simp only [htu] at h1; norm_num at h1

theorem wizardVersionBefore_total :
    ∀ a b : JStr, wizardVersionBefore a b ∨ wizardVersionBefore b a := by
  intro a b
  have h := lexTok_antisymm (tokenizeNumeric a) (tokenizeNumeric b)
  simp only [wizardVersionBefore, localeCompareNumericBase]
  omega

theorem wizardVersionBefore_trans :
    ∀ a b c : JStr, wizardVersionBefore a b → wizardVersionBefore b c →
      wizardVersionBefore a c :=
  fun a b c h1 h2 => lexTok_le_trans _ _ _ h2 h1

theorem mem_dedupSeen : ∀ (l seen : List JStr) (x : JStr),
    x ∈ dedupSeen seen l ↔ x ∈ l ∧ x ∉ seen := by
  intro l
  induction l with
  | nil => intro seen x; simp [dedupSeen]
  | cons y ys ih =>
      intro seen x
      by_cases hy : y ∈ seen
      · rw [dedupSeen, if_pos hy, ih]
        constructor
        · rintro ⟨h1, h2⟩
          exact ⟨List.mem_cons_of_mem y h1, h2⟩
        · rintro ⟨h1, h2⟩
          rcases List.mem_cons.mp h1 with h1 | h1
          · exact absurd (h1 ▸ hy) h2
          · exact ⟨h1, h2⟩
      · rw [dedupSeen, if_neg hy]
        constructor
        · intro h
          rcases List.mem_cons.mp h with h | h
          · exact ⟨h ▸ List.mem_cons_self x ys, h ▸ hy⟩
          · have := (ih (y :: seen) x).mp h
            exact ⟨List.mem_cons_of_mem y this.1,
              fun hc => this.2 (List.mem_cons_of_mem y hc)⟩
        · rintro ⟨h1, h2⟩
          rcases List.mem_cons.mp h1 with h1 | h1
          · exact h1 ▸ List.mem_cons_self y _
          · by_cases hxy : x = y
            · exact hxy ▸ List.mem_cons_self y _
            · exact List.mem_cons_of_mem y ((ih (y :: seen) x).mpr
                ⟨h1, fun hc => (List.mem_cons.mp hc).elim hxy h2⟩)

theorem nodup_dedupSeen : ∀ (l seen : List JStr), (dedupSeen seen l).Nodup := by
  intro l
  induction l with
  | nil => intro seen; simp [dedupSeen]
  | cons y ys ih =>
      intro seen
      by_cases hy : y ∈ seen
      · rw [dedupSeen, if_pos hy]; exact ih seen
      · rw [dedupSeen, if_neg hy]
        refine List.nodup_cons.mpr ⟨?_, ih (y :: seen)⟩
        intro hc
        exact ((mem_dedupSeen ys (y :: seen) y).mp hc).2 (List.mem_cons_self y seen)

theorem isDigit_ne_dot {c : Char} (h : c.isDigit = true) : ¬(c = '.') :=
  fun he => absurd (he ▸ h) (by decide)

theorem isDigit_not_whitespace {c : Char} (h : c.isDigit = true) :
    c.isWhitespace = false := by
  have h1 : ¬(c = ' ') := fun he => absurd (he ▸ h) (by decide)
  have h2 : ¬(c = '\t') := fun he => absurd (he ▸ h) (by decide)
  have h3 : ¬(c = '\r') := fun he => absurd (he ▸ h) (by decide)
  have h4 : ¬(c = '\n') := fun he => absurd (he ▸ h) (by decide)
  simp [Char.isWhitespace, h1, h2, h3, h4]

theorem isDigit_ne_minus {c : Char} (h : c.isDigit = true) : ¬(c = '-') :=
  fun he => absurd (he ▸ h) (by decide)

theorem isDigit_ne_plus {c : Char} (h : c.isDigit = true) : ¬(c = '+') :=
  fun he => absurd (he ▸ h) (by decide)

theorem takeWhile_all {p : Char → Bool} :
    ∀ {l : List Char}, (∀ c ∈ l, p c = true) → l.takeWhile p = l := by
  intro l
  induction l with
  | nil => intro h; rfl
  | cons d t ih =>
      intro h
      simp only [List.takeWhile, h d (List.mem_cons_self d t)]
      rw [ih (fun c hc => h c (List.mem_cons_of_mem d hc))]

theorem splitOnDot_all_digits {ds : List Char}
    (h : ∀ c ∈ ds, c.isDigit = true) : splitOnDot ds = [ds] := by
  induction ds with
  | nil => rfl
  | cons d t ih =>
      have hd := isDigit_ne_dot (h d (List.mem_cons_self d t))
      rw [splitOnDot, if_neg hd, ih (fun c hc => h c (List.mem_cons_of_mem d hc))]

theorem splitOnDot_append_dot {ds : List Char} (rest : JStr)
    (h : ∀ c ∈ ds, c.isDigit = true) :
    splitOnDot (ds ++ '.' :: rest) = ds :: splitOnDot rest := by
  induction ds with
  | nil => simp [splitOnDot]
  | cons d t ih =>
      have hd := isDigit_ne_dot (h d (List.mem_cons_self d t))
      rw [List.cons_append, splitOnDot, if_neg hd,
        ih (fun c hc => h c (List.mem_cons_of_mem d hc))]

theorem splitOnDot_ne_nil : ∀ l : List Char, splitOnDot l ≠ [] := by
  intro l
  induction l with
  | nil => simp [splitOnDot]
  | cons c cs ih =>
      rw [splitOnDot]
      split_ifs
      · simp
      · cases h : splitOnDot cs with
        | nil => exact absurd h ih
        | cons s rest => simp

theorem jsParseInt_digits (ds : List Char) (hne : ds ≠ [])
    (hdig : ∀ c ∈ ds, c.isDigit = true) :
    jsParseInt ds = some ((digitsToNat ds : Int)) := by
  obtain ⟨d, t, rfl⟩ : ∃ d t, ds = d :: t := by
    cases ds with
    | nil => exact absurd rfl hne
    | cons d t => exact ⟨d, t, rfl⟩
  have hd : d.isDigit = true := hdig d (List.mem_cons_self d t)
  have hw : d.isWhitespace = false := isDigit_not_whitespace hd
  have hdrop : (d :: t).dropWhile Char.isWhitespace = d :: t := by
    simp [List.dropWhile, hw]
  have htake : (d :: t).takeWhile Char.isDigit = d :: t := takeWhile_all hdig
  unfold jsParseInt
  rw [hdrop]
  split
  · rename_i r heq
    have hdm : d = '-' := by injection heq
    exact absurd hdm (isDigit_ne_minus hd)
  · rename_i r heq
    have hdp : d = '+' := by injection heq
    exact absurd hdp (isDigit_ne_plus hd)
  · rw [htake, if_neg (by simp)]

theorem parseIntOr0_digits (ds : List Char) (hne : ds ≠ [])
    (hdig : ∀ c ∈ ds, c.isDigit = true) :
    parseIntOr0 ds = (digitsToNat ds : Int) := by
  rw [parseIntOr0, jsParseInt_digits ds hne hdig, Option.getD]

theorem versionParts_last {ds : List Char} (hne : ds ≠ [])
    (hdig : ∀ c ∈ ds, c.isDigit = true) :
    versionParts ds = [(digitsToNat ds : Int)] := by
  rw [versionParts, splitOnDot_all_digits hdig, List.map_cons, List.map_nil,
    parseIntOr0_digits ds hne hdig]

theorem versionParts_seg {ds : List Char} (rest : JStr) (hne : ds ≠ [])
    (hdig : ∀ c ∈ ds, c.isDigit = true) :
    versionParts (ds ++ '.' :: rest) =
      (digitsToNat ds : Int) :: versionParts rest := by
  rw [versionParts, splitOnDot_append_dot rest hdig, List.map_cons,
    parseIntOr0_digits ds hne hdig, versionParts]

theorem tokenizeAux_digits_cont : ∀ (t : List Char) (a : Nat) (rest : List Char),
    (∀ c ∈ t, c.isDigit = true) →
    tokenizeAux (some a) (t ++ rest) =
      tokenizeAux
        (some (t.foldl (fun acc c => 10 * acc + (c.toNat - ('0').toNat)) a))
        rest := by
  intro t
  induction t with
  | nil => intro a rest h; rfl
  | cons d t ih =>
      intro a rest h
      have hd := h d (List.mem_cons_self d t)
      rw [List.cons_append, tokenizeAux.eq_def]
      simp only [hd, if_true, Option.getD, List.foldl_cons]
      exact ih _ rest (fun c hc => h c (List.mem_cons_of_mem d hc))

theorem tokenizeAux_digits_end : ∀ (t : List Char) (a : Nat),
    (∀ c ∈ t, c.isDigit = true) →
    tokenizeAux (some a) t =
      [ColToken.num
        (t.foldl (fun acc c => 10 * acc + (c.toNat - ('0').toNat)) a)] := by
  intro t
  induction t with
  | nil => intro a h; rfl
  | cons d t ih =>
      intro a h
      have hd := h d (List.mem_cons_self d t)
      rw [tokenizeAux.eq_def]
      simp only [hd, if_true, Option.getD, List.foldl_cons]
      exact ih _ (fun c hc => h c (List.mem_cons_of_mem d hc))

theorem tokenizeNumeric_last {ds : List Char} (hne : ds ≠ [])
    (hdig : ∀ c ∈ ds, c.isDigit = true) :
    tokenizeNumeric ds = [ColToken.num (digitsToNat ds)] := by
  obtain ⟨d, t, rfl⟩ : ∃ d t, ds = d :: t := by
    cases ds with
    | nil => exact absurd rfl hne
    | cons d t => exact ⟨d, t, rfl⟩
  have hd : d.isDigit = true := hdig d (List.mem_cons_self d t)
  rw [tokenizeNumeric, tokenizeAux.eq_def]
  simp only [hd, if_true, Option.getD]
  rw [tokenizeAux_digits_end t _ (fun c hc => hdig c (List.mem_cons_of_mem d hc))]
  rw [digitsToNat, List.foldl_cons]

theorem tokenizeNumeric_seg {ds : List Char} (rest : JStr) (hne : ds ≠ [])
    (hdig : ∀ c ∈ ds, c.isDigit = true) :
    tokenizeNumeric (ds ++ '.' :: rest) =
      ColToken.num (digitsToNat ds) :: ColToken.ch '.' ::
        tokenizeNumeric rest := by
  obtain ⟨d, t, rfl⟩ : ∃ d t, ds = d :: t := by
    cases ds with
    | nil => exact absurd rfl hne
    | cons d t => exact ⟨d, t, rfl⟩
  have hd : d.isDigit = true := hdig d (List.mem_cons_self d t)
  rw [tokenizeNumeric, List.cons_append, tokenizeAux.eq_def]
  simp only [hd, if_true, Option.getD]
  rw [tokenizeAux_digits_cont t _ ('.' :: rest)
    (fun c hc => hdig c (List.mem_cons_of_mem d hc))]
  rw [tokenizeAux.eq_def]
  simp only [show ('.').isDigit = false from by decide]
  rw [if_neg (show ¬(false = true) from by decide)]
  rw [digitsToNat, List.foldl_cons, tokenizeNumeric]

theorem lexTok_cons_cons (t u : ColToken) (ts us : List ColToken) :
    lexTok (t :: ts) (u :: us) =
      if tokCmp t u ≠ 0 then tokCmp t u else lexTok ts us := rfl

theorem cmpParts_cons_cons (x y : Int) (xs ys : List Int) :
    cmpParts (x :: xs) (y :: ys) =
      if x > y then 1 else if x < y then -1 else cmpParts xs ys := rfl

/-- On well-formed versions with the same number of segments, the wizard's
locale-numeric comparator computes exactly `compareVersions`. -/
theorem localeCmp_eq_compareVersions_of_wf {a : JStr} (ha : WfVer a) :
    ∀ {b : JStr}, WfVer b → (splitOnDot a).length = (splitOnDot b).length →
      localeCompareNumericBase a b = compareVersions a b := by
  induction ha with
  | last ds1 hne1 hdig1 =>
      intro b hb hlen
      cases hb with
      | last ds2 hne2 hdig2 =>
          rw [localeCompareNumericBase, tokenizeNumeric_last hne1 hdig1,
            tokenizeNumeric_last hne2 hdig2, compareVersions,
            versionParts_last hne1 hdig1, versionParts_last hne2 hdig2]
          simp only [lexTok, tokCmp, cmpParts, zerosCmp]
          split_ifs <;> omega
      | seg ds2 rest2 hne2 hdig2 hrest2 =>
          exfalso
          rw [splitOnDot_all_digits hdig1,
            splitOnDot_append_dot rest2 hdig2] at hlen
          have hpos : (splitOnDot rest2).length ≠ 0 := by
            simpa [List.length_eq_zero] using splitOnDot_ne_nil rest2
          simp only [List.length_cons, List.length_nil] at hlen
          omega
  | seg ds1 rest1 hne1 hdig1 hrest1 ih =>
      intro b hb hlen
      cases hb with
      | last ds2 hne2 hdig2 =>
          exfalso
          rw [splitOnDot_all_digits hdig2,
            splitOnDot_append_dot rest1 hdig1] at hlen
          have hpos : (splitOnDot rest1).length ≠ 0 := by
            simpa [List.length_eq_zero] using splitOnDot_ne_nil rest1
          simp only [List.length_cons, List.length_nil] at hlen
          omega
      | seg ds2 rest2 hne2 hdig2 hrest2 =>
          rw [splitOnDot_append_dot rest1 hdig1,
            splitOnDot_append_dot rest2 hdig2] at hlen
          have hlen2 : (splitOnDot rest1).length = (splitOnDot rest2).length := by
            simp only [List.length_cons] at hlen
            omega
          have hrec := ih hrest2 hlen2
          rw [localeCompareNumericBase, compareVersions] at hrec
          rw [localeCompareNumericBase, tokenizeNumeric_seg rest1 hne1 hdig1,
            tokenizeNumeric_seg rest2 hne2 hdig2, compareVersions,
            versionParts_seg rest1 hne1 hdig1, versionParts_seg rest2 hne2 hdig2]
          rw [lexTok_cons_cons, lexTok_cons_cons, cmpParts_cons_cons,
            show tokCmp (ColToken.ch '.') (ColToken.ch '.') = 0 from by
              simp [tokCmp],
            if_neg (show ¬((0 : Int) ≠ 0) from by norm_num), hrec,
            show tokCmp (ColToken.num (digitsToNat ds1))
                (ColToken.num (digitsToNat ds2)) =
              (if digitsToNat ds1 < digitsToNat ds2 then -1
               else if digitsToNat ds2 < digitsToNat ds1 then 1 else 0) from rfl]
          split_ifs <;> omega

theorem isAvailable_iff (releases : List ApiRelease) (sv pid : JStr) :
    isAvailable releases sv pid = true ↔
      ∃ r ∈ releases, r.version = sv ∧ jsToLower r.platform = jsToLower pid := by
  simp [isAvailable, List.any_eq_true]

/-- **C2.** At wizard step 2, a platform click moves the machine to step 3
with `selectedPlatform` set exactly when some artifact in the wizard's
catalog has the selected version and a case-insensitively equal platform
string; with zero matching artifacts the click leaves the state machine at
step 2 with `selectedPlatform` unchanged. -/
theorem wizard_platform_guard (releases : List ApiRelease) (st : WizardState)
    (pid : JStr) (h2 : st.step = 2) :
    ((∃ r ∈ releases, r.version = st.selectedVersion ∧
        jsToLower r.platform = jsToLower pid) →
      platformButtonClick releases st pid =
        { st with selectedPlatform := pid, step := 3 }) ∧
    ((¬ ∃ r ∈ releases, r.version = st.selectedVersion ∧
        jsToLower r.platform = jsToLower pid) →
      platformButtonClick releases st pid = st ∧
      (platformButtonClick releases st pid).step = 2 ∧
      (platformButtonClick releases st pid).selectedPlatform =
        st.selectedPlatform) := by
  constructor
  · intro hex
    have h := (isAvailable_iff releases st.selectedVersion pid).mpr hex
    simp [platformButtonClick, h, handlePlatformSelect]
  · intro hnex
    have h : isAvailable releases st.selectedVersion pid = false := by
      rw [Bool.eq_false_iff]
      intro hc
      exact hnex ((isAvailable_iff releases st.selectedVersion pid).mp hc)
    simp [platformButtonClick, h, h2]

/-- Witness for C2: with catalog `[{version "1.20", platform "Paper"}]` at
step 2 with version `"1.20"` selected, clicking `"paper"` transitions to
step 3, while clicking `"fabric"` (zero matches) leaves the state
unchanged. -/
theorem wizard_platform_guard_witness :
    platformButtonClick
        [⟨("1.20").toList, ("Paper").toList, ("7").toList, none, [], none, none⟩]
        ⟨2, ("1.20").toList, []⟩ ("paper").toList =
      ⟨3, ("1.20").toList, ("paper").toList⟩ ∧
    platformButtonClick
        [⟨("1.20").toList, ("Paper").toList, ("7").toList, none, [], none, none⟩]
        ⟨2, ("1.20").toList, []⟩ ("fabric").toList =
      ⟨2, ("1.20").toList, []⟩ :=
  ⟨(wizard_platform_guard
      [⟨("1.20").toList, ("Paper").toList, ("7").toList, none, [], none, none⟩]
      ⟨2, ("1.20").toList, []⟩ ("paper").toList rfl).1
      ⟨⟨("1.20").toList, ("Paper").toList, ("7").toList, none, [], none, none⟩,
        by decide, by decide, by decide⟩,
    ((wizard_platform_guard
      [⟨("1.20").toList, ("Paper").toList, ("7").toList, none, [], none, none⟩]
      ⟨2, ("1.20").toList, []⟩ ("fabric").toList rfl).2 (by decide)).1⟩

/-- **C10.** The wizard's step-2 candidates are the fixed ids
`paper`, `purpur`, `fabric`; consequently any artifact the wizard's step-3
lookup resolves for a candidate platform has a platform string
case-insensitively equal to one of those three ids — an artifact with any
other platform string can never be selected through the wizard — whereas
the browser pages' platform list contains exactly the platform values
present in the fetched catalog. -/
theorem wizard_platforms_fixed (releases : List ApiRelease) (sv : JStr)
    (pm : PlatformMeta) (a : ApiRelease) (hmem : pm ∈ PLATFORMS_META)
    (hfind : wizardMatch releases sv pm.id = some a) :
    PLATFORMS_META.map PlatformMeta.id =
      [("paper").toList, ("purpur").toList, ("fabric").toList] ∧
    (jsToLower a.platform = ("paper").toList ∨
     jsToLower a.platform = ("purpur").toList ∨
     jsToLower a.platform = ("fabric").toList) ∧
    (∀ (rs : List Release) (p : JStr),
      p ∈ availablePlatforms rs ↔ ∃ r ∈ rs, r.platform = p) := by
  refine ⟨by decide, ?_, ?_⟩
  · have hp := List.find?_some hfind
    rw [Bool.and_eq_true, beq_iff_eq, beq_iff_eq] at hp
    rw [hp.2]
    simp only [PLATFORMS_META, List.mem_cons, List.not_mem_nil, or_false] at hmem
    rcases hmem with h | h | h <;> rw [h] <;> simp [jsToLower]
  · intro rs p
    rw [availablePlatforms,
      (List.perm_insertionSort (fun a b => jsStrLt b a = false) _).mem_iff,
      dedupKeepFirst, mem_dedupSeen]
    simp [List.mem_map, eq_comm]

/-- Witness for C10: the `"paper"` candidate resolving an artifact whose
backend platform string is `"Paper"`. -/
theorem wizard_platforms_fixed_witness :
    wizardMatch
        [⟨("1.20").toList, ("Paper").toList, ("7").toList, none, [], none, none⟩]
        (("1.20").toList)
        (⟨("paper").toList, ("Paper").toList,
          ("High-performance server").toList⟩ : PlatformMeta).id =
      some ⟨("1.20").toList, ("Paper").toList, ("7").toList, none, [], none, none⟩ ∧
    (jsToLower ("Paper").toList = ("paper").toList ∨
     jsToLower ("Paper").toList = ("purpur").toList ∨
     jsToLower ("Paper").toList = ("fabric").toList) :=
  ⟨by decide,
    (wizard_platforms_fixed
      [⟨("1.20").toList, ("Paper").toList, ("7").toList, none, [], none, none⟩]
      (("1.20").toList)
      ⟨("paper").toList, ("Paper").toList, ("High-performance server").toList⟩
      ⟨("1.20").toList, ("Paper").toList, ("7").toList, none, [], none, none⟩
      (by decide) (by decide)).2.1⟩

/-- **C5 (code-bug exhibit).** The resolved size does take the
`size`/`file_size` aliases with the first non-empty winning (last two
conjuncts), but an artifact with both aliases empty resolves to the
fallback `"0"` and is rendered through `formatBytes(parseInt(size))`
exactly like an artifact whose real size is `"0"`: both hit the
`"0 Bytes"` branch, so an unknown size is silently shown as zero. -/
theorem wizard_size_conflation :
    (getDownloadData
        [⟨("1.20").toList, ("Paper").toList, ("7").toList, none, [], none, none⟩]
        (("1.20").toList) (("paper").toList) []).map DownloadData.size =
      some (("0").toList) ∧
    (getDownloadData
        [⟨("1.20").toList, ("Paper").toList, ("8").toList, none, ("0").toList,
          none, none⟩]
        (("1.20").toList) (("paper").toList) []).map DownloadData.size =
      some (("0").toList) ∧
    formatBytesIsZero (jsParseInt (("0").toList)) = true ∧
    (getDownloadData
        [⟨("1.20").toList, ("Paper").toList, ("9").toList, some (("123").toList),
          ("456").toList, none, none⟩]
        (("1.20").toList) (("paper").toList) []).map DownloadData.size =
      some (("123").toList) ∧
    (getDownloadData
        [⟨("1.20").toList, ("Paper").toList, ("10").toList, some [],
          ("456").toList, none, none⟩]
        (("1.20").toList) (("paper").toList) []).map DownloadData.size =
      some (("456").toList) := by
  refine ⟨by decide, by decide, by decide, by decide, by decide⟩

/-- **C1 (code-bug exhibit).** Only the dev-builds normalization (first
four conjuncts) maps the three envelope shapes as claimed
(array ↦ itself, single object ↦ one-element, null/absent ↦ empty).  The
releases page, on a `{data: null}` envelope, stores the one-element list
containing the whole envelope instead of the empty list (its fallback
tests `data`, not `data.data`), and on a single-object envelope stores the
envelope rather than the object; the wizard drops a single-object `data`
entirely. -/
theorem envelope_normalization_exhibit :
    normBuildsData (Jsonish.jobj [((("data").toList),
        Jsonish.jarr [Jsonish.jobj [((("version").toList),
          Jsonish.jstr (("1.0").toList))]])]) =
      [Jsonish.jobj [((("version").toList), Jsonish.jstr (("1.0").toList))]] ∧
    normBuildsData (Jsonish.jobj [((("data").toList),
        Jsonish.jobj [((("version").toList), Jsonish.jstr (("1.0").toList))])]) =
      [Jsonish.jobj [((("version").toList), Jsonish.jstr (("1.0").toList))]] ∧
    normBuildsData (Jsonish.jobj [((("data").toList), Jsonish.jnull)]) = [] ∧
    normBuildsData (Jsonish.jobj []) = [] ∧
    normReleasesData (Jsonish.jobj [((("data").toList), Jsonish.jnull)]) =
      [Jsonish.jobj [((("data").toList), Jsonish.jnull)]] ∧
    normReleasesData (Jsonish.jobj [((("data").toList), Jsonish.jnull)]) ≠ [] ∧
    normReleasesData (Jsonish.jobj [((("data").toList),
        Jsonish.jobj [((("version").toList), Jsonish.jstr (("1.0").toList))])]) =
      [Jsonish.jobj [((("data").toList),
        Jsonish.jobj [((("version").toList), Jsonish.jstr (("1.0").toList))])]] ∧
    normModalData (Jsonish.jobj [((("data").toList),
        Jsonish.jobj [((("version").toList), Jsonish.jstr (("1.0").toList))])]) =
      [] :=
  ⟨rfl, rfl, rfl, rfl, rfl, by simp [normReleasesData, jsField, lookupField,
    jsTruthy], rfl, rfl⟩

/-- **C3 counterexample.** In the wizard, a failing fetch cycle starting
from a state that already holds one artifact leaves the artifact list
untouched (not cleared to empty) and records only the boolean flag `true`,
not a message derived from the failure. -/
theorem modal_failure_keeps_list :
    (modalFetchCycle
        ⟨[Jsonish.jobj [((("version").toList), Jsonish.jstr (("1.0").toList))]],
         false, false, false⟩
        (FetchOutcome.httpError (("Internal Server Error").toList))).releases =
      [Jsonish.jobj [((("version").toList), Jsonish.jstr (("1.0").toList))]] ∧
    [Jsonish.jobj [((("version").toList), Jsonish.jstr (("1.0").toList))]] ≠
      ([] : List Jsonish) ∧
    (modalFetchCycle
        ⟨[Jsonish.jobj [((("version").toList), Jsonish.jstr (("1.0").toList))]],
         false, false, false⟩
        (FetchOutcome.httpError (("Internal Server Error").toList))).error =
      true :=
  ⟨rfl, by simp, rfl⟩

/-- **C3 (amended).** Every fetch cycle sets the loading flag true before
the request and false after completion regardless of outcome, in all three
fetchers; on any failure the releases and dev-builds browsers clear the
artifact list to empty and record the human-readable message derived from
the failure (HTTP status text inside the thrown message, the exception's
message, or the generic fallback), while the wizard records only a boolean
error flag and leaves its artifact list unchanged. -/
theorem fetch_cycle_behaviour (s t : BrowserFetchState) (m : ModalFetchState)
    (out : FetchOutcome) (stText msg : JStr) :
    (fetchReleasesStart s).loading = true ∧
    (fetchReleasesSettle (fetchReleasesStart s) out).loading = false ∧
    (fetchBuildsStart t).loading = true ∧
    (fetchBuildsSettle (fetchBuildsStart t) out).loading = false ∧
    (modalFetchStart m).isLoading = true ∧
    (modalFetchSettle (modalFetchStart m) out).isLoading = false ∧
    fetchReleasesCycle s (FetchOutcome.httpError stText) =
      ⟨[], false, some ((("Failed to fetch releases: ").toList) ++ stText)⟩ ∧
    fetchReleasesCycle s (FetchOutcome.thrownError msg) = ⟨[], false, some msg⟩ ∧
    fetchReleasesCycle s FetchOutcome.thrownOther =
      ⟨[], false, some (("Failed to load releases").toList)⟩ ∧
    fetchBuildsCycle t (FetchOutcome.httpError stText) =
      ⟨[], false, some ((("Failed to fetch dev builds: ").toList) ++ stText)⟩ ∧
    fetchBuildsCycle t (FetchOutcome.thrownError msg) = ⟨[], false, some msg⟩ ∧
    fetchBuildsCycle t FetchOutcome.thrownOther =
      ⟨[], false, some (("Failed to load dev builds").toList)⟩ ∧
    (modalFetchCycle m (FetchOutcome.httpError stText)).releases = m.releases ∧
    (modalFetchCycle m (FetchOutcome.httpError stText)).error = true ∧
    (modalFetchCycle m (FetchOutcome.thrownError msg)).releases = m.releases ∧
    (modalFetchCycle m (FetchOutcome.thrownError msg)).error = true ∧
    (modalFetchCycle m FetchOutcome.thrownOther).releases = m.releases ∧
    (modalFetchCycle m FetchOutcome.thrownOther).error = true := by
  refine ⟨rfl, ?_, rfl, ?_, rfl, ?_, rfl, rfl, rfl, rfl, rfl, rfl,
    rfl, rfl, rfl, rfl, rfl, rfl⟩ <;> cases out <;> rfl

/-- **C4 counterexample.** The wizard's version ordering (locale-numeric
`localeCompare`) and the browsers' `compareVersions` ordering do not agree
on every pair: on `("2.0", "2.0.0")` the browsers' comparator returns `0`
while the wizard's returns `-1`; consequently, on a catalog holding
versions `"2.0"` and `"2.0.0"`, the wizard's step-1 list and the browsers'
`availableVersions` come out in observably different orders. -/
theorem wizard_version_order_differs :
    compareVersions ("2.0").toList ("2.0.0").toList = 0 ∧
    localeCompareNumericBase ("2.0").toList ("2.0.0").toList = -1 ∧
    uniqueVersions
        [⟨("2.0").toList, ("Paper").toList, ("1").toList, none, [], none, none⟩,
         ⟨("2.0.0").toList, ("Paper").toList, ("2").toList, none, [], none, none⟩] =
      [("2.0.0").toList, ("2.0").toList] ∧
    availableVersions
        [⟨("2.0").toList, ("paper").toList, 1, [], [], 0, []⟩,
         ⟨("2.0.0").toList, ("paper").toList, 2, [], [], 0, []⟩] =
      [("2.0").toList, ("2.0.0").toList] := by
  refine ⟨by decide, by decide, by decide, by decide⟩

/-- **C4 (amended).** The wizard's step-1 list contains exactly the
distinct versions of its own catalog (first two conjuncts, as for the
browsers) but is ordered descending by the locale-aware numeric comparator
rather than by `compareVersions`; the two comparators agree on every pair
of well-formed dot-numeric versions with the same number of segments
(last conjunct), though not on every pair of version strings. -/
theorem wizard_versions_distinct_sorted :
    (∀ (releases : List ApiRelease) (v : JStr),
      v ∈ uniqueVersions releases ↔ ∃ r ∈ releases, r.version = v) ∧
    (∀ releases : List ApiRelease, (uniqueVersions releases).Nodup) ∧
    (∀ releases : List ApiRelease,
      List.Pairwise (fun a b => localeCompareNumericBase b a ≤ 0)
        (uniqueVersions releases)) ∧
    (∀ a b : JStr, WfVer a → WfVer b →
      (splitOnDot a).length = (splitOnDot b).length →
      localeCompareNumericBase a b = compareVersions a b) := by
  haveI : IsTotal JStr wizardVersionBefore := ⟨wizardVersionBefore_total⟩
  haveI : IsTrans JStr wizardVersionBefore := ⟨wizardVersionBefore_trans⟩
  refine ⟨?_, ?_, ?_, fun a b ha hb hlen =>
    localeCmp_eq_compareVersions_of_wf ha hb hlen⟩
  · intro releases v
    rw [uniqueVersions,
      (List.perm_insertionSort wizardVersionBefore _).mem_iff,
      dedupKeepFirst, mem_dedupSeen]
    simp [List.mem_map, eq_comm]
  · intro releases
    exact ((List.perm_insertionSort wizardVersionBefore _).nodup_iff).mpr
      (nodup_dedupSeen _ _)
  · intro releases
    exact List.sorted_insertionSort wizardVersionBefore _

/-- Witness for C4 (amended): the agreement hypotheses are satisfiable,
e.g. by the two-segment well-formed versions `"2.0"` and `"1.10"`. -/
theorem wizard_versions_distinct_sorted_witness :
    localeCompareNumericBase ("2.0").toList ("1.10").toList =
      compareVersions ("2.0").toList ("1.10").toList :=
  wizard_versions_distinct_sorted.2.2.2 (("2.0").toList) (("1.10").toList)
    (WfVer.seg ['2'] ['0'] (by decide) (by decide)
      (WfVer.last ['0'] (by decide) (by decide)))
    (WfVer.seg ['1'] ['1', '0'] (by decide) (by decide)
      (WfVer.last ['1', '0'] (by decide) (by decide)))
    (by decide)

end Pulse
